import Mathlib

/-!
# Verification of the markdown-mixed-media inline-block streaming renderer

This file gives a shallow embedding, in Lean, of the core logic of the
`markdown-mixed-media` repository and proves (or refutes) the frozen claims
about it.  The embedded pieces are:

* the single-pass line scanner of `src/direct-renderer.ts`
  (`renderMarkdownDirect`): fenced-code tracking, mermaid-fence buffering,
  bounded lookahead for embedded SVG blocks, standalone-image detection and
  the text-accumulator flush discipline.  Writes to `process.stdout` are
  modelled as an ordered list of `Segment`s, each annotated with the loop
  index at which the write happened.  External subprocess output (chafa /
  mmdc byte streams) is abstracted: a block segment records the data handed
  to the external adapter, not the bytes the adapter produced.
* `extractSvgFromHtml` of `src/lib/svg.ts` (the lazy case-insensitive
  `<svg ... </svg>` match, plus the unescaped-ampersand repair).
* `deepMerge` / `isObject` and the `loadConfig` control flow of
  `src/lib/config.ts`, over a JSON-like value type `JVal`.
* the width computation of `src/lib/image.ts`
  (`Math.floor(termColumns * widthPercent)`), with JS numbers modelled as
  rationals.
* the module-level availability cache and warning flag of
  `src/lib/mermaid.ts` (`checkMermaidAvailable`, `renderMermaidDiagram`),
  and the temp-file lifecycle of `renderMermaidDiagram` /
  `cleanupMermaidFile` over an explicit file-system set.

JavaScript loops are modelled with an explicit fuel argument equal to the
loop bound of the source (structural recursion, so concrete inputs evaluate
by `decide`).
-/

/-! ## JS string primitives used by the scanner -/

/-- JS `\w` character class (ASCII): letters, digits and underscore. -/
def isWordChar (c : Char) : Bool :=
  ('a' ≤ c && c ≤ 'z') || ('A' ≤ c && c ≤ 'Z') || ('0' ≤ c && c ≤ '9') || c = '_'

/-- JS `\s` on a single line (the input is split on `'\n'`, so no newline
appears inside a line): space, tab, carriage return, vertical tab, form
feed, no-break space. -/
def isJsSpace (c : Char) : Bool :=
  c = ' ' || c = '\t' || c = '\r' || c = '\x0b' || c = '\x0c' || c = '\u00A0'

/-- List version of JS `String.prototype.includes`. -/
def listHasSub (s pat : List Char) : Bool :=
  match s with
  | [] => pat.isPrefixOf ([] : List Char)
  | _ :: rest => pat.isPrefixOf s || listHasSub rest pat

/-- JS `s.includes(pat)`. -/
def strIncludes (s pat : String) : Bool :=
  listHasSub s.toList pat.toList

/-- JS `line.startsWith('\x60\x60\x60')` (the fence delimiter check of
`renderMarkdownDirect`). -/
def fenceStart (line : String) : Bool :=
  ("```".toList).isPrefixOf line.toList

/-- Capture group 1 of `/^\x60\x60\x60(\w+)?/` on a line that starts with a
fence: the maximal run of word characters after the three backticks, or
`none` when that run is empty. -/
def fenceTag (line : String) : Option String :=
  let tag := (line.toList.drop 3).takeWhile isWordChar
  if tag.isEmpty then none else some tag.asString

/-- The standalone-image test `/^\s*!\[([^\]]*)\]\(([^)]+)\)\s*$/` of
`renderMarkdownDirect`: returns the `(alt, src)` capture groups on a match.
The regex is deterministic: `alt` is everything up to the first `]`, `src`
everything up to the first `)` (nonempty), the rest must be whitespace. -/
def imageLineMatch (line : String) : Option (String × String) :=
  match line.toList.dropWhile isJsSpace with
  | '!' :: '[' :: rest =>
    let alt := rest.takeWhile (fun c => c ≠ ']')
    match rest.drop alt.length with
    | ']' :: '(' :: rest2 =>
      let src := rest2.takeWhile (fun c => c ≠ ')')
      match src, rest2.drop src.length with
      | [], _ => none
      | _ :: _, ')' :: rest3 =>
        if rest3.all isJsSpace then some (alt.asString, src.asString) else none
      | _ :: _, _ => none
    | _ => none
  | _ => none

/-! ## `extractSvgFromHtml` (src/lib/svg.ts) -/

/-- Case-insensitive prefix test (the `/i` flag of the SVG regex). -/
def ciPrefix : List Char → List Char → Bool
  | [], _ => true
  | _ :: _, [] => false
  | p :: ps, c :: cs => (p.toLower = c.toLower) && ciPrefix ps cs

/-- Index of the first case-insensitive occurrence of `pat` in `s`. -/
def ciFind (s pat : List Char) : Option Nat :=
  if ciPrefix pat s then some 0
  else
    match s with
    | [] => none
    | _ :: rest => (ciFind rest pat).map (· + 1)

/-- Replace every `&` of a text run by `&amp;`. -/
def escapeAmps : List Char → List Char
  | [] => []
  | '&' :: rest => '&' :: 'a' :: 'm' :: 'p' :: ';' :: escapeAmps rest
  | c :: rest => c :: escapeAmps rest

/-- The guard `/&(amp|lt|gt|quot|apos);/` of `extractSvgFromHtml`: the run
already contains some escaped entity. -/
def hasEntityRef (cs : List Char) : Bool :=
  listHasSub cs "&amp;".toList || listHasSub cs "&lt;".toList ||
  listHasSub cs "&gt;".toList || listHasSub cs "&quot;".toList ||
  listHasSub cs "&apos;".toList

/-- The replacement callback of `extractSvgFromHtml`: escape bare ampersands
of a text run unless it already contains an entity reference. -/
def fixTextRun (run : List Char) : List Char :=
  if run.contains '&' && !hasEntityRef run then escapeAmps run else run

/-- The global replace `/>([^<]+)</g` of `extractSvgFromHtml`: each
maximal `>text<` span (text nonempty, free of `<`) has its text run passed
through `fixTextRun`; scanning resumes after the consumed `<`. -/
def ampFix : List Char → List Char
  | [] => []
  | '>' :: rest =>
    let run := rest.takeWhile (fun c => c ≠ '<')
    match h : rest.drop run.length with
    | '<' :: rest2 =>
      if run.isEmpty then '>' :: ampFix rest
      else '>' :: (fixTextRun run ++ '<' :: ampFix rest2)
    | _ => '>' :: ampFix rest
  | c :: rest => c :: ampFix rest
termination_by cs => cs.length
decreasing_by
  · simp
  · have h' := congrArg List.length h
    simp [List.length_drop] at h'
    simp
    omega
  · simp
  · simp

/-- The function `extractSvgFromHtml(html)`: the leftmost, shortest case-insensitive
`<svg ... </svg>` span, with `ampFix` applied, or `none` when the lazy
regex `/<svg[\s\S]*?<\/svg>/i` has no match. -/
def extractSvgFromHtml (html : String) : Option String :=
  let cs := html.toList
  match ciFind cs "<svg".toList with
  | none => none
  | some p =>
    let tail := cs.drop p
    match ciFind tail "</svg>".toList with
    | none => none
    | some q => some ((ampFix (tail.take (q + 6))).asString)

/-! ## The line scanner of `renderMarkdownDirect` (src/direct-renderer.ts) -/

/-- One write to the output sink.  `text s` is the flush of the text
accumulator (the source renders `s` through `marked` and writes the result);
`mermaid body` is the diagram emission for a closed mermaid fence (the
rendered graphic on success, the literal fallback block on failure — either
way one block write dispatched with `body`); `svg content` is the embedded
vector-graphic emission; `image alt src` is the standalone-image emission
(rendered image, or one of the textual placeholders). -/
inductive Segment where
  | text (s : String)
  | mermaid (body : String)
  | svg (content : String)
  | image (alt src : String)
deriving Repr, DecidableEq

/-- Is this segment a flush of the text accumulator? -/
def isTextSeg : Segment → Bool
  | .text _ => true
  | _ => false

/-- The scanner's mutable state: the two fence flags, the two accumulators
and the write trace.  Each trace entry is paired with the value of the loop
index at the iteration that performed the write. -/
structure ScanState where
  inCodeBlock : Bool
  inMermaidBlock : Bool
  mermaidContent : String
  processedContent : String
  output : List (Segment × Nat)
deriving Repr, DecidableEq

/-- The state at loop entry: both flags false, empty accumulators. -/
def initScanState : ScanState :=
  { inCodeBlock := false, inMermaidBlock := false, mermaidContent := "",
    processedContent := "", output := [] }

/-- The flush `if (processedContent) { process.stdout.write(marked(processedContent));
processedContent = ''; }` that precedes every non-text write
(and runs once more after the loop). -/
def flushOutput (st : ScanState) (i : Nat) : ScanState :=
  if st.processedContent = "" then st
  else { st with output := st.output ++ [(Segment.text st.processedContent, i)],
                 processedContent := "" }

/-- The inner lookahead of the SVG branch: scan for a closing `</div>` in
the window `k ∈ [j, j+5) ∩ [0, lines.length)`, appending each line after
`j` to the collected content.  `fuel` starts at 5 and counts the window
down.  Returns the grown content and the index of the closing line, if
found. -/
def divScanAux (lines : List String) (j : Nat) : Nat → Nat → String → String × Option Nat
  | 0, _, acc => (acc, none)
  | fuel + 1, k, acc =>
    if k < lines.length then
      let acc := if j < k then acc ++ lines.getD k "" ++ "\n" else acc
      if strIncludes (lines.getD k "") "</div>" then (acc, some k)
      else divScanAux lines j fuel (k + 1) acc
    else (acc, none)

/-- The outer lookahead of the SVG branch: scan `j ∈ [i, i+100) ∩
[0, lines.length)` collecting lines, remembering whether `<svg` was seen;
on the first line containing `</svg>` after `<svg` was seen, either finish
directly (no `<div` collected) or run the `</div>` lookahead.  `fuel`
starts at 100.  Returns `(svgContent, foundSvg, foundEndDiv, i')` where
`i'` is the value the source assigns to the loop index `i` (unchanged when
no complete block was found). -/
def svgScanAux (lines : List String) (i : Nat) : Nat → Nat → String → Bool → String × Bool × Bool × Nat
  | 0, _, acc, foundSvg => (acc, foundSvg, false, i)
  | fuel + 1, j, acc, foundSvg =>
    if j < lines.length then
      let lj := lines.getD j ""
      let acc := acc ++ lj ++ "\n"
      let foundSvg := foundSvg || strIncludes lj "<svg"
      if foundSvg && strIncludes lj "</svg>" then
        if strIncludes acc "<div" then
          match divScanAux lines j 5 j acc with
          | (acc, some k) => (acc, foundSvg, true, k)
          | (acc, none) => (acc, foundSvg, false, i)
        else (acc, foundSvg, true, j)
      else svgScanAux lines i fuel (j + 1) acc foundSvg
    else (acc, foundSvg, false, i)

/-- The whole SVG lookahead starting at line `i`. -/
def svgScan (lines : List String) (i : Nat) : String × Bool × Bool × Nat :=
  svgScanAux lines i 100 i "" false

/-- The tail of the loop body: the standalone-image check
`!inCodeBlock && imageMatch`, falling back to accumulating the line as
ordinary text. -/
def imageOrText (line : String) (st : ScanState) (i : Nat) : ScanState :=
  match imageLineMatch line with
  | some (alt, src) =>
    if !st.inCodeBlock then
      let st := flushOutput st i
      { st with output := st.output ++ [(Segment.image alt src, i)] }
    else { st with processedContent := st.processedContent ++ line ++ "\n" }
  | none => { st with processedContent := st.processedContent ++ line ++ "\n" }

/-- One iteration of the scanner loop at index `i`: returns the new state
and the index of the next iteration (the source's `i`, after the body's
reassignments, plus one). -/
def scanStep (lines : List String) (i : Nat) (st : ScanState) : ScanState × Nat :=
  let line := lines.getD i ""
  if fenceStart line then
    if st.inMermaidBlock then
      let st := flushOutput st i
      ({ st with inMermaidBlock := false,
                 output := st.output ++ [(Segment.mermaid st.mermaidContent, i)],
                 mermaidContent := "" }, i + 1)
    else if fenceTag line = some "mermaid" then
      ({ st with inMermaidBlock := true, mermaidContent := "" }, i + 1)
    else
      ({ st with inCodeBlock := !st.inCodeBlock,
                 processedContent := st.processedContent ++ line ++ "\n" }, i + 1)
  else if st.inMermaidBlock then
    ({ st with mermaidContent := st.mermaidContent ++ line ++ "\n" }, i + 1)
  else if !st.inCodeBlock && (strIncludes line "<svg" || strIncludes line "<div") then
    let r := svgScan lines i
    let svgContent := r.1
    let foundSvg := r.2.1
    let foundEndDiv := r.2.2.1
    let iNew := r.2.2.2
    if foundSvg && foundEndDiv then
      match extractSvgFromHtml svgContent with
      | some sv =>
        let st := flushOutput st i
        ({ st with output := st.output ++ [(Segment.svg sv, i)] }, iNew + 1)
      | none => (imageOrText line st i, iNew + 1)
    else (imageOrText line st i, iNew + 1)
  else (imageOrText line st i, i + 1)

/-- The scanner loop.  `fuel` bounds the number of iterations; it is called
with `lines.length`, which suffices because every iteration advances the
index by at least one. -/
def scanLoop (lines : List String) : Nat → Nat → ScanState → ScanState
  | 0, _, st => st
  | fuel + 1, i, st =>
    if i < lines.length then
      let r := scanStep lines i st
      scanLoop lines fuel r.2 r.1
    else st

/-- The write trace of `renderMarkdownDirect` on a document already split
on `'\n'`: run the loop from the initial state, then flush the remaining
accumulated text once more. -/
def renderSegments (lines : List String) : List (Segment × Nat) :=
  (flushOutput (scanLoop lines lines.length 0 initScanState) lines.length).output

/-! ## JSON-like values and `deepMerge` (src/lib/config.ts) -/

/-- A JavaScript value as the configuration layer handles it: strings,
numbers (modelled as rationals), booleans, `null`, arrays and plain objects
(ordered association lists, unique keys in any value produced by
`JSON.parse`). -/
inductive JVal where
  | str (s : String)
  | num (q : ℚ)
  | bool (b : Bool)
  | null
  | arr (xs : List JVal)
  | obj (fields : List (String × JVal))

/-- The test `isObject(item)`: `item && typeof item === 'object' &&
!Array.isArray(item)` — true exactly for plain objects (`null` is falsy,
arrays are excluded, primitives are not of object type). -/
def isObjectB : JVal → Bool
  | .obj _ => true
  | _ => false

/-- JS property write `o[k] = v` / `Object.assign(o, {[k]: v})` on an
object's ordered field list: update the existing key in place, else append
the new key at the end. -/
def objSet : List (String × JVal) → String → JVal → List (String × JVal)
  | [], k, v => [(k, v)]
  | (k', v') :: rest, k, v =>
    if k' = k then (k', v) :: rest else (k', v') :: objSet rest k v

/-- JS property read `o[k]` on an object's field list. -/
def lookupField : List (String × JVal) → String → Option JVal
  | [], _ => none
  | (k', v) :: rest, k => if k' = k then some v else lookupField rest k

/-- The own enumerable properties captured by a spread `{...target}`:
an object's fields; index keys for arrays and strings; nothing for
primitives and `null`. -/
def spreadFields : JVal → List (String × JVal)
  | .obj f => f
  | .arr xs => (List.range xs.length).map (fun i => (toString i, xs.getD i .null))
  | .str s =>
    (List.range s.length).map
      (fun i => (toString i, .str (String.singleton (s.toList.getD i ' '))))
  | _ => []

mutual

/-- The function `deepMerge(target, source)` of src/lib/config.ts: start from
`{...target}`; when both sides are plain objects walk the source's keys —
a plain-object source value merges recursively when the key exists on the
target and is copied when it does not; any other source value is assigned
wholesale. -/
def deepMerge (target source : JVal) : JVal :=
  match target, source with
  | .obj tf, .obj sf => .obj (mergeFields tf sf tf)
  | _, _ => .obj (spreadFields target)
termination_by sizeOf source

/-- The `Object.keys(source).forEach` loop of `deepMerge`, walking the
source fields `sf` in order and updating the output `out` (initially the
copy of the target's fields `tf`). -/
def mergeFields (tf sf out : List (String × JVal)) : List (String × JVal) :=
  match sf with
  | [] => out
  | (k, v) :: rest =>
    let out :=
      if isObjectB v then
        if (lookupField tf k).isNone then objSet out k v
        else objSet out k (deepMerge ((lookupField tf k).getD .null) v)
      else objSet out k v
    mergeFields tf rest out
termination_by sizeOf sf

end

/-! ## The built-in default configuration and `loadConfig` (src/lib/config.ts) -/

/-- A JS object literal `{...base, k1: v1, ...}`: the spread of `base`
followed by the listed property writes in order. -/
def objLit (base : JVal) (updates : List (String × JVal)) : JVal :=
  .obj (updates.foldl (fun acc kv => objSet acc kv.1 kv.2) (spreadFields base))

/-- The built-in `terminalProfile` (dark theme). -/
def terminalProfile : JVal := .obj
  [("name", .str "terminal"),
   ("output", .str "terminal"),
   ("theme", .str "dark"),
   ("fonts", .obj
     [("body", .str "default"),
      ("heading", .str "default"),
      ("code", .str "monospace"),
      ("mermaid", .str "monospace")]),
   ("images", .obj
     [("widthPercent", .num (3/4)),
      ("alignment", .str "center")]),
   ("mermaid", .obj
     [("width", .num 1600),
      ("height", .num 1200),
      ("theme", .str "dark"),
      ("backgroundColor", .str "transparent"),
      ("scale", .str "none"),
      ("fontFamily", .str "Inter, -apple-system, BlinkMacSystemFont, sans-serif"),
      ("fontSize", .str "14px"),
      ("dpi", .num 96)]),
   ("terminal", .obj
     [("backend", .str "chafa"),
      ("transparency", .obj
        [("enabled", .bool true),
         ("threshold", .num (19/20))]),
      ("pixelsPerColumn", .num 8),
      ("imageScaling", .num (3/4)),
      ("fallbackColumns", .num 80)]),
   ("tables", .obj
     [("wordWrap", .bool true),
      ("wrapOnWordBoundary", .bool true),
      ("widthPercent", .num (19/20))])]

/-- The built-in `pdfProfile` (light theme). -/
def pdfProfile : JVal := .obj
  [("name", .str "pdf"),
   ("output", .str "pdf"),
   ("theme", .str "light"),
   ("fonts", .obj
     [("body", .str "Inter, -apple-system, BlinkMacSystemFont, \"Segoe UI\", Roboto, \"Helvetica Neue\", Arial, sans-serif"),
      ("heading", .str "Inter, -apple-system, BlinkMacSystemFont, \"Segoe UI\", Roboto, \"Helvetica Neue\", Arial, sans-serif"),
      ("code", .str "\"Fira Code\", \"Cascadia Code\", \"JetBrains Mono\", Consolas, \"Courier New\", monospace"),
      ("mermaid", .str "Inter, -apple-system, BlinkMacSystemFont, \"Segoe UI\", Roboto, sans-serif")]),
   ("fontSizes", .obj
     [("body", .str "11pt"), ("h1", .str "24pt"), ("h2", .str "20pt"),
      ("h3", .str "16pt"), ("h4", .str "14pt"), ("h5", .str "12pt"),
      ("h6", .str "11pt"), ("code", .str "10pt")]),
   ("colors", .obj
     [("text", .str "#1a1a1a"),
      ("heading", .str "#000000"),
      ("link", .str "#0066cc"),
      ("code", .obj
        [("background", .str "#f6f8fa"), ("text", .str "#24292e"),
         ("keyword", .str "#d73a49"), ("string", .str "#032f62"),
         ("comment", .str "#6a737d"), ("function", .str "#6f42c1"),
         ("number", .str "#005cc5")])]),
   ("margins", .obj
     [("top", .str "1in"), ("bottom", .str "1in"),
      ("left", .str "1in"), ("right", .str "1in")]),
   ("images", .obj
     [("widthPercent", .num (4/5)),
      ("alignment", .str "center"),
      ("maxWidth", .str "100%"),
      ("dpi", .num 150)]),
   ("mermaid", .obj
     [("width", .num 2400),
      ("height", .num 1600),
      ("theme", .str "default"),
      ("backgroundColor", .str "transparent"),
      ("scale", .num 1),
      ("fontFamily", .str "Inter, -apple-system, BlinkMacSystemFont, sans-serif"),
      ("fontSize", .str "14px"),
      ("dpi", .num 300)]),
   ("pdf", .obj
     [("pageSize", .str "Letter"),
      ("orientation", .str "portrait"),
      ("headerFooter", .obj
        [("enabled", .bool true), ("fontSize", .str "9pt"),
         ("showPageNumbers", .bool true), ("showDate", .bool true),
         ("showTitle", .bool true)])])]

/-- The built-in `printProfile`: a spread of `pdfProfile` with
print-friendly fonts, colors and mermaid settings. -/
def printProfile : JVal := objLit pdfProfile
  [("name", .str "print"),
   ("fonts", objLit (.obj
     [("body", .str "Inter, -apple-system, BlinkMacSystemFont, \"Segoe UI\", Roboto, \"Helvetica Neue\", Arial, sans-serif"),
      ("heading", .str "Inter, -apple-system, BlinkMacSystemFont, \"Segoe UI\", Roboto, \"Helvetica Neue\", Arial, sans-serif"),
      ("code", .str "\"Fira Code\", \"Cascadia Code\", \"JetBrains Mono\", Consolas, \"Courier New\", monospace"),
      ("mermaid", .str "Inter, -apple-system, BlinkMacSystemFont, \"Segoe UI\", Roboto, sans-serif")])
     [("body", .str "Georgia, \"Times New Roman\", serif"),
      ("heading", .str "Georgia, \"Times New Roman\", serif")]),
   ("colors", .obj
     [("text", .str "#000000"),
      ("heading", .str "#000000"),
      ("link", .str "#000000"),
      ("code", .obj
        [("background", .str "#ffffff"), ("text", .str "#000000"),
         ("keyword", .str "#000000"), ("string", .str "#000000"),
         ("comment", .str "#666666"), ("function", .str "#000000"),
         ("number", .str "#000000")])]),
   ("mermaid", objLit (.obj
     [("width", .num 2400),
      ("height", .num 1600),
      ("theme", .str "default"),
      ("backgroundColor", .str "transparent"),
      ("scale", .num 1),
      ("fontFamily", .str "Inter, -apple-system, BlinkMacSystemFont, sans-serif"),
      ("fontSize", .str "14px"),
      ("dpi", .num 300)])
     [("theme", .str "neutral"),
      ("backgroundColor", .str "#ffffff")])]

/-- The built-in `odtProfile` (LibreOffice/Word editing). -/
def odtProfile : JVal := .obj
  [("name", .str "odt"),
   ("output", .str "odt"),
   ("theme", .str "light"),
   ("fonts", .obj
     [("body", .str "Liberation Sans, Arial, sans-serif"),
      ("heading", .str "Liberation Sans, Arial, sans-serif"),
      ("code", .str "Liberation Mono, Courier New, monospace"),
      ("mermaid", .str "Liberation Sans, Arial, sans-serif")]),
   ("fontSizes", .obj
     [("body", .str "12pt"), ("h1", .str "20pt"), ("h2", .str "18pt"),
      ("h3", .str "16pt"), ("h4", .str "14pt"), ("h5", .str "12pt"),
      ("h6", .str "12pt"), ("code", .str "10pt")]),
   ("colors", .obj
     [("text", .str "#000000"),
      ("heading", .str "#000080"),
      ("link", .str "#0000ff"),
      ("code", .obj
        [("background", .str "#f5f5f5"), ("text", .str "#333333"),
         ("keyword", .str "#0000ff"), ("string", .str "#008000"),
         ("comment", .str "#808080"), ("function", .str "#800080"),
         ("number", .str "#098658")])]),
   ("images", .obj
     [("widthPercent", .num (9/10)),
      ("alignment", .str "center"),
      ("maxWidth", .str "100%"),
      ("dpi", .num 150)]),
   ("mermaid", .obj
     [("width", .num 2400),
      ("height", .num 1600),
      ("theme", .str "default"),
      ("backgroundColor", .str "#ffffff"),
      ("scale", .num 1),
      ("fontFamily", .str "Inter, -apple-system, BlinkMacSystemFont, sans-serif"),
      ("fontSize", .str "14px"),
      ("dpi", .num 300)])]

/-- The built-in `defaultConfig`: default profile name plus the four
built-in profiles. -/
def defaultConfig : JVal := .obj
  [("defaultProfile", .str "terminal"),
   ("profiles", .obj
     [("terminal", terminalProfile),
      ("pdf", pdfProfile),
      ("print", printProfile),
      ("odt", odtProfile)])]

/-- What `loadConfig` finds at the per-user config path: the file is
absent (`ENOENT`), present but rejected by `JSON.parse`, or present and
parsed to a value. -/
inductive ConfigFileState where
  | missing
  | unparseable
  | parsed (userConfig : JVal)

/-- The observable outcome of a `loadConfig()` call: the returned
configuration, whether `initializeConfig()` was invoked (defaults written
out to disk), and whether any error escapes to the caller (the returned
promise rejects). -/
structure LoadOutcome where
  config : JVal
  initialized : Bool
  surfacedError : Bool

/-- The function `loadConfig()` of src/lib/config.ts: read and parse the config file and
deep-merge it over the defaults; every failure is caught — on `ENOENT` the
defaults are initialized to disk, and in all failure cases `defaultConfig`
is returned normally (the catch block never rethrows). -/
def loadConfig (file : ConfigFileState) : LoadOutcome :=
  match file with
  | .missing => { config := defaultConfig, initialized := true, surfacedError := false }
  | .unparseable => { config := defaultConfig, initialized := false, surfacedError := false }
  | .parsed u => { config := deepMerge defaultConfig u, initialized := false, surfacedError := false }

/-! ## Terminal width computation (src/lib/image.ts) -/

/-- The `targetColumns` computation of `renderChafaSixel` /
`renderSixelImage`: `Math.floor(termColumns * widthPercent)`, with JS
numbers modelled as rationals.  No lower clamp is applied. -/
def targetColumns (termColumns : ℕ) (widthPercent : ℚ) : ℤ :=
  ⌊(termColumns : ℚ) * widthPercent⌋

/-- Modelled from the spec: `columnsForWidth(terminalColumns, widthPercent)`
as §4.3 of the spec words it — `floor(terminalColumns * widthPercent)`,
minimum 1.  Stated for comparison with `targetColumns`, the computation the
source actually performs. -/
def columnsForWidthSpec (terminalColumns : ℕ) (widthPercent : ℚ) : ℤ :=
  max 1 ⌊(terminalColumns : ℚ) * widthPercent⌋

/-! ## The mermaid availability cache (src/lib/mermaid.ts) -/

/-- The module-level state of src/lib/mermaid.ts:
`let mermaidAvailable: boolean | undefined = undefined;` and
`let mermaidWarningShown = false;`. -/
structure MermaidModuleState where
  mermaidAvailable : Option Bool
  mermaidWarningShown : Bool
deriving Repr, DecidableEq

/-- The module state at process start. -/
def initMermaidModule : MermaidModuleState :=
  { mermaidAvailable := none, mermaidWarningShown := false }

/-- The observable outcome of one `checkMermaidAvailable()` call:
its boolean result, the module state afterwards, whether the
`which mmdc` probe subprocess was executed, and whether the missing-tool
warning was printed during this call. -/
structure CheckOutcome where
  available : Bool
  state : MermaidModuleState
  probeExecuted : Bool
  warningPrinted : Bool
deriving Repr, DecidableEq

/-- The probe `checkMermaidAvailable()`: return the cached probe result when one
exists; otherwise run `which mmdc` (its success is the parameter `probe`),
cache the result, and on failure print the installation warning — but only
if it has not been shown before in this process. -/
def checkMermaidAvailable (probe : Bool) (st : MermaidModuleState) : CheckOutcome :=
  match st.mermaidAvailable with
  | some v => { available := v, state := st, probeExecuted := false, warningPrinted := false }
  | none =>
    if probe then
      { available := true,
        state := { mermaidAvailable := some true,
                   mermaidWarningShown := st.mermaidWarningShown },
        probeExecuted := true, warningPrinted := false }
    else
      { available := false,
        state := { mermaidAvailable := some false, mermaidWarningShown := true },
        probeExecuted := true, warningPrinted := !st.mermaidWarningShown }

/-- The observable outcome of one `renderMermaidDiagram` call, as far as
availability handling goes: whether a placeholder (rather than a compiled
diagram) was returned, whether the `mmdc` compiler subprocess was invoked,
the module state afterwards, and the probe/warning effects of the embedded
`checkMermaidAvailable()` call. -/
structure RenderMermaidOutcome where
  returnedPlaceholder : Bool
  compilerInvoked : Bool
  state : MermaidModuleState
  probeExecuted : Bool
  warningPrinted : Bool
deriving Repr, DecidableEq

/-- The control flow of `renderMermaidDiagram` around availability: check
the cache/probe; when unavailable return the placeholder image without
touching `mmdc`; when available invoke `mmdc` (its success is
`compileSucceeds`) and fall back to the placeholder on failure. -/
def renderMermaidDiagramFlow (probe compileSucceeds : Bool)
    (st : MermaidModuleState) : RenderMermaidOutcome :=
  let c := checkMermaidAvailable probe st
  if !c.available then
    { returnedPlaceholder := true, compilerInvoked := false, state := c.state,
      probeExecuted := c.probeExecuted, warningPrinted := c.warningPrinted }
  else
    { returnedPlaceholder := !compileSucceeds, compilerInvoked := true,
      state := c.state, probeExecuted := c.probeExecuted,
      warningPrinted := c.warningPrinted }

/-- Running `n` consecutive `renderMermaidDiagram` calls in one process: the total
number of warnings printed, the total number of probe executions, and the
final module state. -/
def renderCallsTally (probe compileSucceeds : Bool) :
    Nat → MermaidModuleState → Nat × Nat × MermaidModuleState
  | 0, st => (0, 0, st)
  | n + 1, st =>
    let r := renderMermaidDiagramFlow probe compileSucceeds st
    let rest := renderCallsTally probe compileSucceeds n r.state
    ((if r.warningPrinted then 1 else 0) + rest.1,
     (if r.probeExecuted then 1 else 0) + rest.2.1, rest.2.2)

/-! ## Temp-file lifecycle of `renderMermaidDiagram` (src/lib/mermaid.ts) -/

/-- The files `renderMermaidDiagram` touches under `/tmp`, by role:
`mermaidSrc h` is `mermaid-<h>.mmd`, `mermaidCfg h` is
`mermaid-config-<h>.json`, `mermaidOut h ext` is `mermaid-<h>.<ext>`. -/
inductive TmpPath where
  | mermaidSrc (hash : String)
  | mermaidCfg (hash : String)
  | mermaidOut (hash : String) (ext : String)
deriving Repr, DecidableEq

/-- A write `fs.writeFile` (also `mmdc` creating its output): the path exists
afterwards. -/
def fsWrite (fs : List TmpPath) (p : TmpPath) : List TmpPath :=
  if p ∈ fs then fs else p :: fs

/-- An unlink `fs.unlink(p).catch(...)`: the path is gone afterwards, errors
ignored. -/
def fsUnlink (fs : List TmpPath) (p : TmpPath) : List TmpPath :=
  fs.filter (fun q => q ≠ p)

/-- The fallback `createPlaceholderImage(outputFormat, outputFile)`: for `svg` write the
placeholder SVG at the output file and return it; for any other format
write the placeholder at `outputFile.replace('.png', '.svg')` and return
that SVG path instead. -/
def createPlaceholderImage (outputFormat hash : String) (fs : List TmpPath) :
    TmpPath × List TmpPath :=
  if outputFormat = "svg" then
    (TmpPath.mermaidOut hash "svg", fsWrite fs (TmpPath.mermaidOut hash "svg"))
  else
    (TmpPath.mermaidOut hash "svg", fsWrite fs (TmpPath.mermaidOut hash "svg"))

/-- The file-system effects of one `renderMermaidDiagram` call: when the
compiler is unavailable, only the placeholder is produced; when available,
the config and source temp files are written, `mmdc` runs (success
`compileSucceeds` creates the output file), and the intermediate files are
unlinked on both the success and the failure path — on failure the output
is also unlinked and a placeholder substituted.  Returns the path handed
back to the caller and the resulting file set. -/
def renderMermaidDiagramFS (available compileSucceeds : Bool)
    (outputFormat hash : String) (fs : List TmpPath) : TmpPath × List TmpPath :=
  let outputFile := TmpPath.mermaidOut hash outputFormat
  if !available then createPlaceholderImage outputFormat hash fs
  else
    let fs := fsWrite fs (TmpPath.mermaidCfg hash)
    let fs := fsWrite fs (TmpPath.mermaidSrc hash)
    if compileSucceeds then
      let fs := fsWrite fs outputFile
      let fs := fsUnlink fs (TmpPath.mermaidSrc hash)
      let fs := fsUnlink fs (TmpPath.mermaidCfg hash)
      (outputFile, fs)
    else
      let fs := fsUnlink fs (TmpPath.mermaidSrc hash)
      let fs := fsUnlink fs (TmpPath.mermaidCfg hash)
      let fs := fsUnlink fs outputFile
      createPlaceholderImage outputFormat hash fs

/-- The function `cleanupMermaidFile(filePath)`: the caller-issued deletion of the
output file it has consumed. -/
def cleanupMermaidFile (filePath : TmpPath) (fs : List TmpPath) : List TmpPath :=
  fsUnlink fs filePath

/-! ## Notions used to state the scanner claims -/

/-- The text obtained by appending the selected source lines, each followed
by the `'\n'` the accumulator re-adds, in the selection's order. -/
def SelJoin (lines : List String) : List Nat → String
  | [] => ""
  | j :: rest => (lines.getD j "" ++ "\n") ++ SelJoin lines rest

/-- Property: `s` is the in-order join of some strictly increasing selection of
source-line indices, all smaller than `t`. -/
def TextFromEarlier (lines : List String) (s : String) (t : Nat) : Prop :=
  ∃ sel : List Nat, List.Chain' (· < ·) sel ∧ (∀ j ∈ sel, j < t) ∧ s = SelJoin lines sel

/-- The trace shape at every loop boundary: a sequence of groups, each a
lone block write or a text flush immediately followed (at the same loop
index) by a block write.  This is the `[text?, block]*` pattern — no two
adjacent text segments, every flush glued to the block that interrupted
the accumulator. -/
inductive ChronOk : List (Segment × Nat) → Prop
  | nil : ChronOk []
  | block (e : Segment × Nat) (rest : List (Segment × Nat)) :
      isTextSeg e.1 = false → ChronOk rest → ChronOk (e :: rest)
  | flushBlock (s : String) (e : Segment × Nat) (rest : List (Segment × Nat)) :
      isTextSeg e.1 = false → ChronOk rest → ChronOk ((Segment.text s, e.2) :: e :: rest)

/-- The final trace shape: the boundary shape, optionally closed by the
end-of-document flush of the remaining text. -/
def FlushedShape (out : List (Segment × Nat)) : Prop :=
  ChronOk out ∨ ∃ pre s t, out = pre ++ [(Segment.text s, t)] ∧ ChronOk pre

/-- Property: `s` is the in-order join of some strictly increasing selection
of source-line indices, all inside the window `[lo, t)`. -/
def TextBetween (lines : List String) (s : String) (lo t : Nat) : Prop :=
  ∃ sel : List Nat, List.Chain' (· < ·) sel ∧ (∀ j ∈ sel, lo ≤ j ∧ j < t) ∧
    s = SelJoin lines sel

/-- The interleaving discipline of the trace, with a low watermark `lo`
threaded left to right: `BlockSeq lines lo out hi` says `out` is a sequence
of groups — a lone block write, or a text flush glued to the block write
that interrupted the accumulator (same loop index) — where every flushed
text draws its source lines from the window between the previous block's
write index (exclusive; initially the start of the document) and the write
index of the block it is glued to, and `hi` is the watermark left for
whatever follows (one past the last block's write index).  Text of source
lines read before a block's write index can therefore only be emitted
before that block, never after it. -/
inductive BlockSeq (lines : List String) : Nat → List (Segment × Nat) → Nat → Prop
  | nil (lo : Nat) : BlockSeq lines lo [] lo
  | block (lo hi : Nat) (e : Segment × Nat) (rest : List (Segment × Nat)) :
      isTextSeg e.1 = false → lo ≤ e.2 → BlockSeq lines (e.2 + 1) rest hi →
      BlockSeq lines lo (e :: rest) hi
  | flushBlock (lo hi : Nat) (s : String) (e : Segment × Nat)
      (rest : List (Segment × Nat)) :
      isTextSeg e.1 = false → lo ≤ e.2 → s ≠ "" → TextBetween lines s lo e.2 →
      BlockSeq lines (e.2 + 1) rest hi →
      BlockSeq lines lo ((Segment.text s, e.2) :: e :: rest) hi

/-- The whole trace respects the interleaving discipline from the start of
the document, optionally closed by the end-of-document flush, whose content
likewise comes only from source lines after the last block's write index. -/
def FlushedOrderedTrace (lines : List String) (out : List (Segment × Nat)) : Prop :=
  (∃ hi, BlockSeq lines 0 out hi) ∨
  ∃ pre s t hi, out = pre ++ [(Segment.text s, t)] ∧ BlockSeq lines 0 pre hi ∧
    s ≠ "" ∧ hi ≤ t ∧ TextBetween lines s hi t

/-- The loop invariant of the scanner, at boundary index `i` with trace
`out` and text accumulator `pc`: every write happened at an earlier index,
the write indices are nondecreasing along the trace, the trace has the
flush-before-block shape, every flushed text is a nonempty in-order join
of source lines earlier than its write index, and — the interleaving part —
the trace respects the watermark discipline with some residual watermark
`hi ≤ i`, the pending accumulator holding exactly lines from the window
`[hi, i)` (source lines read since the last emitted block). -/
structure ScanInv (lines : List String) (i : Nat) (out : List (Segment × Nat))
    (pc : String) : Prop where
  tsLt : ∀ e ∈ out, e.2 < i
  tsMono : List.Pairwise (fun a b => a ≤ b) (out.map Prod.snd)
  shape : ChronOk out
  textsOk : ∀ e ∈ out, ∀ s, e.1 = Segment.text s → s ≠ "" ∧ TextFromEarlier lines s e.2
  pcOk : TextFromEarlier lines pc i
  ordered : ∃ hi, hi ≤ i ∧ BlockSeq lines 0 out hi ∧ TextBetween lines pc hi i

/-- JS property read on any value: a key lookup that succeeds only on
plain objects. -/
def objLookup : JVal → String → Option JVal
  | .obj f, k => lookupField f k
  | _, _ => none

/-! ## Lemmas and claim theorems -/

theorem selJoin_append (lines : List String) (s1 s2 : List Nat) :
    SelJoin lines (s1 ++ s2) = SelJoin lines s1 ++ SelJoin lines s2 := by
  induction s1 with
  | nil => simp [SelJoin, String.empty_append]
  | cons j rest ih => simp [SelJoin, ih, String.append_assoc]

theorem chronOk_append {l1 l2 : List (Segment × Nat)} (h1 : ChronOk l1)
    (h2 : ChronOk l2) : ChronOk (l1 ++ l2) := by
  induction h1 with
  | nil => simpa using h2
  | block e rest he _ ih => exact ChronOk.block e _ he ih
  | flushBlock s e rest he _ ih => exact ChronOk.flushBlock s e _ he ih

theorem blockSeq_append {lines : List String} {lo mid hi : Nat}
    {l1 l2 : List (Segment × Nat)} (h1 : BlockSeq lines lo l1 mid)
    (h2 : BlockSeq lines mid l2 hi) : BlockSeq lines lo (l1 ++ l2) hi := by
  induction h1 with
  | nil _ => simpa using h2
  | block lo' hi' e rest he hle _ ih =>
    exact BlockSeq.block lo' hi e _ he hle (ih h2)
  | flushBlock lo' hi' s e rest he hle hs htb _ ih =>
    exact BlockSeq.flushBlock lo' hi s e _ he hle hs htb (ih h2)

theorem textBetween_mono_upper {lines : List String} {s : String} {lo t t' : Nat}
    (h : TextBetween lines s lo t) (ht : t ≤ t') : TextBetween lines s lo t' := by
  obtain ⟨sel, hch, hb, hj⟩ := h
  exact ⟨sel, hch, fun j hm => ⟨(hb j hm).1, lt_of_lt_of_le (hb j hm).2 ht⟩, hj⟩

theorem textFromEarlier_mono {lines : List String} {s : String} {t t' : Nat}
    (h : TextFromEarlier lines s t) (ht : t ≤ t') : TextFromEarlier lines s t' := by
  obtain ⟨sel, hch, hlt, hj⟩ := h
  exact ⟨sel, hch, fun j hm => lt_of_lt_of_le (hlt j hm) ht, hj⟩

theorem blockSeq_block_cons {lines : List String} {lo hi : Nat}
    {e : Segment × Nat} {rest : List (Segment × Nat)}
    (h : BlockSeq lines lo (e :: rest) hi) (hb : isTextSeg e.1 = false) :
    lo ≤ e.2 ∧ BlockSeq lines (e.2 + 1) rest hi := by
  cases h with
  | block _ _ _ _ _ hle hrest => exact ⟨hle, hrest⟩
  | flushBlock _ _ s e' rest' hts hle hs htb hrest => simp [isTextSeg] at hb

theorem blockSeq_nil_inv {lines : List String} {lo hi : Nat}
    (h : BlockSeq lines lo [] hi) : hi = lo := by
  cases h with
  | nil _ => rfl

theorem blockSeq_single_text {lines : List String} {lo hi : Nat} {s : String}
    {t : Nat} (h : BlockSeq lines lo [(Segment.text s, t)] hi) : False := by
  cases h with
  | block _ _ _ _ hts _ _ => simp [isTextSeg] at hts

theorem scanInv_mono {lines : List String} {i i' : Nat}
    {out : List (Segment × Nat)} {pc : String}
    (h : ScanInv lines i out pc) (hi : i ≤ i') : ScanInv lines i' out pc where
  tsLt := fun e he => lt_of_lt_of_le (h.tsLt e he) hi
  tsMono := h.tsMono
  shape := h.shape
  textsOk := h.textsOk
  pcOk := textFromEarlier_mono h.pcOk hi
  ordered := by
    obtain ⟨hw, hhw, bs, tb⟩ := h.ordered
    exact ⟨hw, le_trans hhw hi, bs, textBetween_mono_upper tb hi⟩

theorem scanInv_init (lines : List String) : ScanInv lines 0 [] "" where
  tsLt := by intro e he; cases he
  tsMono := by simp
  shape := ChronOk.nil
  textsOk := by intro e he; cases he
  pcOk := ⟨[], by simp, by simp, rfl⟩
  ordered := ⟨0, le_refl 0, BlockSeq.nil 0, ⟨[], by simp, by simp, rfl⟩⟩

theorem scanInv_pushBlock {lines : List String} {i : Nat} {out : List (Segment × Nat)}
    (h : ScanInv lines i out "") (seg : Segment) (hseg : isTextSeg seg = false)
    {i' : Nat} (hi : i + 1 ≤ i') : ScanInv lines i' (out ++ [(seg, i)]) "" where
  tsLt := by
    intro e he
    rcases List.mem_append.1 he with h1 | h2
    · have := h.tsLt e h1; omega
    · have h2' : e = (seg, i) := by simpa using h2
      subst h2'
      simpa using hi
  tsMono := by
    rw [List.map_append, List.pairwise_append]
    refine ⟨h.tsMono, by simp, ?_⟩
    intro a ha b hb
    simp at hb
    obtain ⟨e, he, hae⟩ := List.mem_map.1 ha
    have := h.tsLt e he
    omega
  shape := chronOk_append h.shape (ChronOk.block _ _ hseg ChronOk.nil)
  textsOk := by
    intro e he s hs
    rcases List.mem_append.1 he with h1 | h2
    · exact h.textsOk e h1 s hs
    · have h2' : e = (seg, i) := by simpa using h2
      subst h2'
      rw [show (seg, i).1 = seg from rfl] at hs
      rw [hs] at hseg
      simp [isTextSeg] at hseg
  pcOk := ⟨[], by simp, by simp, rfl⟩
  ordered := by
    obtain ⟨hw, hhw, bs, -⟩ := h.ordered
    refine ⟨i + 1, hi, ?_, ⟨[], by simp, by simp, rfl⟩⟩
    exact blockSeq_append bs
      (BlockSeq.block hw (i + 1) (seg, i) [] hseg hhw (BlockSeq.nil (i + 1)))

theorem scanInv_flushPushBlock {lines : List String} {i : Nat}
    {out : List (Segment × Nat)} {pc : String} (h : ScanInv lines i out pc)
    (hpc : pc ≠ "") (seg : Segment) (hseg : isTextSeg seg = false)
    {i' : Nat} (hi : i + 1 ≤ i') :
    ScanInv lines i' (out ++ [(Segment.text pc, i), (seg, i)]) "" where
  tsLt := by
    intro e he
    rcases List.mem_append.1 he with h1 | h2
    · have := h.tsLt e h1; omega
    · simp at h2
      rcases h2 with rfl | rfl <;> simpa using hi
  tsMono := by
    rw [List.map_append, List.pairwise_append]
    refine ⟨h.tsMono, by simp, ?_⟩
    intro a ha b hb
    obtain ⟨e, he, hae⟩ := List.mem_map.1 ha
    have := h.tsLt e he
    simp at hb
    rcases hb with hb | hb <;> omega
  shape := by
    refine chronOk_append h.shape ?_
    exact ChronOk.flushBlock pc (seg, i) [] hseg ChronOk.nil
  textsOk := by
    intro e he s hs
    rcases List.mem_append.1 he with h1 | h2
    · exact h.textsOk e h1 s hs
    · simp at h2
      rcases h2 with rfl | rfl
      · have hspc : pc = s := by simpa using hs
        subst hspc
        exact ⟨hpc, h.pcOk⟩
      · rw [show (seg, i).1 = seg from rfl] at hs
        rw [hs] at hseg
        simp [isTextSeg] at hseg
  pcOk := ⟨[], by simp, by simp, rfl⟩
  ordered := by
    obtain ⟨hw, hhw, bs, tb⟩ := h.ordered
    refine ⟨i + 1, hi, ?_, ⟨[], by simp, by simp, rfl⟩⟩
    refine blockSeq_append bs ?_
    exact BlockSeq.flushBlock hw (i + 1) pc (seg, i) [] hseg hhw hpc tb
      (BlockSeq.nil (i + 1))

theorem scanInv_appendLine {lines : List String} {i : Nat}
    {out : List (Segment × Nat)} {pc : String} (h : ScanInv lines i out pc)
    {i' : Nat} (hi : i + 1 ≤ i') :
    ScanInv lines i' out (pc ++ lines.getD i "" ++ "\n") where
  tsLt := fun e he => lt_of_lt_of_le (h.tsLt e he) (by omega)
  tsMono := h.tsMono
  shape := h.shape
  textsOk := h.textsOk
  pcOk := by
    obtain ⟨sel, hch, hlt, hj⟩ := h.pcOk
    refine ⟨sel ++ [i], ?_, ?_, ?_⟩
    · rw [List.chain'_append]
      refine ⟨hch, by simp, ?_⟩
      intro x hx y hy
      simp at hy
      subst hy
      obtain ⟨hne, rfl⟩ := List.mem_getLast?_eq_getLast hx
      exact hlt _ (List.getLast_mem hne)
    · intro j hm
      rcases List.mem_append.1 hm with h1 | h2
      · have := hlt j h1; omega
      · simp at h2; omega
    · rw [selJoin_append, ← hj]
      simp [SelJoin, String.append_empty, String.append_assoc]
  ordered := by
    obtain ⟨hw, hhw, bs, tb⟩ := h.ordered
    obtain ⟨sel, hch, hb, hj⟩ := tb
    refine ⟨hw, by omega, bs, sel ++ [i], ?_, ?_, ?_⟩
    · rw [List.chain'_append]
      refine ⟨hch, by simp, ?_⟩
      intro x hx y hy
      simp at hy
      subst hy
      obtain ⟨hne, rfl⟩ := List.mem_getLast?_eq_getLast hx
      exact (hb _ (List.getLast_mem hne)).2
    · intro j hm
      rcases List.mem_append.1 hm with h1 | h2
      · have := hb j h1
        exact ⟨this.1, by omega⟩
      · simp at h2
        subst h2
        exact ⟨hhw, by omega⟩
    · rw [selJoin_append, ← hj]
      simp [SelJoin, String.append_empty, String.append_assoc]

theorem scanInv_imageOrText {lines : List String} {i : Nat} {st : ScanState}
    (h : ScanInv lines i st.output st.processedContent) {i' : Nat}
    (hi : i + 1 ≤ i') :
    ScanInv lines i' (imageOrText (lines.getD i "") st i).output
      (imageOrText (lines.getD i "") st i).processedContent := by
  unfold imageOrText
  cases hm : imageLineMatch (lines.getD i "") with
  | none => exact scanInv_appendLine h hi
  | some p =>
    obtain ⟨alt, src⟩ := p
    by_cases hc : st.inCodeBlock
    · simp only [hc, Bool.not_true, Bool.false_eq_true, if_false]
      exact scanInv_appendLine h hi
    · simp only [hc, Bool.not_false, if_true, flushOutput]
      by_cases hpc : st.processedContent = ""
      · simp only [hpc, if_true]
        exact scanInv_pushBlock (by rw [hpc] at h; exact h)
          (Segment.image alt src) rfl hi
      · simp only [hpc, if_false]
        have := scanInv_flushPushBlock h hpc (Segment.image alt src) rfl hi
        simpa [List.append_assoc] using this

theorem divScanAux_some_bound {lines : List String} {j : Nat} :
    ∀ {fuel k : Nat} {acc acc' : String} {k' : Nat},
      divScanAux lines j fuel k acc = (acc', some k') → k ≤ k' ∧ k' < lines.length := by
  intro fuel
  induction fuel with
  | zero =>
    intro k acc acc' k' h
    simp [divScanAux] at h
  | succ n ih =>
    intro k acc acc' k' h
    simp only [divScanAux] at h
    split at h
    · split at h
      · simp only [Prod.mk.injEq, Option.some.injEq] at h
        omega
      · have := ih h
        omega
    · simp at h

theorem svgScanAux_spec {lines : List String} {i : Nat} :
    ∀ {fuel j : Nat} {acc : String} {fs : Bool}, i ≤ j →
      (((svgScanAux lines i fuel j acc fs).2.2.1 = false →
          (svgScanAux lines i fuel j acc fs).2.2.2 = i) ∧
        ((svgScanAux lines i fuel j acc fs).2.2.1 = true →
          (svgScanAux lines i fuel j acc fs).2.1 = true ∧
            i ≤ (svgScanAux lines i fuel j acc fs).2.2.2 ∧
            (svgScanAux lines i fuel j acc fs).2.2.2 < lines.length)) := by
  intro fuel
  induction fuel with
  | zero =>
    intro j acc fs _
    exact ⟨fun _ => rfl, by simp [svgScanAux]⟩
  | succ n ih =>
    intro j acc fs hij
    simp only [svgScanAux]
    split
    case isTrue hjlen =>
      split
      case isTrue hcl =>
        have hcl' : (fs || strIncludes (lines.getD j "") "<svg") = true ∧
            strIncludes (lines.getD j "") "</svg>" = true := by
          simpa using hcl
        split
        case isTrue hdiv =>
          split
          next acc2 k' heq =>
            refine ⟨by simp, fun _ => ⟨by simpa using hcl'.1, ?_, ?_⟩⟩
            · have := divScanAux_some_bound heq
              simp
              omega
            · have := divScanAux_some_bound heq
              simpa using this.2
          next acc2 heq =>
            exact ⟨fun _ => rfl, by simp⟩
        case isFalse =>
          refine ⟨by simp, fun _ => ⟨by simpa using hcl'.1, by simpa using hij,
            by simpa using hjlen⟩⟩
      case isFalse => exact ih (by omega)
    case isFalse => exact ⟨fun _ => rfl, by simp⟩

theorem svgScan_false_idx {lines : List String} {i : Nat}
    (h : (svgScan lines i).2.2.1 = false) : (svgScan lines i).2.2.2 = i :=
  (svgScanAux_spec (le_refl i)).1 h

theorem svgScan_true_spec {lines : List String} {i : Nat}
    (h : (svgScan lines i).2.2.1 = true) :
    (svgScan lines i).2.1 = true ∧ i ≤ (svgScan lines i).2.2.2 ∧
      (svgScan lines i).2.2.2 < lines.length :=
  (svgScanAux_spec (le_refl i)).2 h

theorem scanInv_step {lines : List String} {i : Nat} {st : ScanState}
    (h : ScanInv lines i st.output st.processedContent) (hlen : i < lines.length) :
    ScanInv lines (scanStep lines i st).2 (scanStep lines i st).1.output
        (scanStep lines i st).1.processedContent ∧
      (scanStep lines i st).2 ≤ lines.length ∧ i < (scanStep lines i st).2 := by
  by_cases hf : fenceStart (lines.getD i "") = true
  · have hf2 : fenceStart (lines[i]?.getD "") = true := by simpa using hf
    by_cases hmm : st.inMermaidBlock = true
    · -- closing a mermaid fence: flush, then emit the diagram
      by_cases hpc : st.processedContent = ""
      · have hstep : scanStep lines i st =
            ({ st with inMermaidBlock := false,
                       output := st.output ++ [(Segment.mermaid st.mermaidContent, i)],
                       mermaidContent := "" }, i + 1) := by
          simp [scanStep, hf2, hmm, flushOutput, hpc]
        rw [hstep]
        refine ⟨?_, by omega, by omega⟩
        show ScanInv lines (i + 1) (st.output ++ [(Segment.mermaid st.mermaidContent, i)])
          st.processedContent
        rw [hpc]
        exact scanInv_pushBlock (by rw [hpc] at h; exact h)
          (Segment.mermaid st.mermaidContent) rfl (le_refl _)
      · have hstep : scanStep lines i st =
            ({ st with inMermaidBlock := false,
                       output := st.output ++ [(Segment.text st.processedContent, i),
                         (Segment.mermaid st.mermaidContent, i)],
                       processedContent := "",
                       mermaidContent := "" }, i + 1) := by
          simp [scanStep, hf2, hmm, flushOutput, hpc]
        rw [hstep]
        refine ⟨?_, by omega, by omega⟩
        show ScanInv lines (i + 1) (st.output ++ [(Segment.text st.processedContent, i),
          (Segment.mermaid st.mermaidContent, i)]) ""
        exact scanInv_flushPushBlock h hpc (Segment.mermaid st.mermaidContent)
          rfl (le_refl _)
    · by_cases htag : fenceTag (lines.getD i "") = some "mermaid"
      · have htag2 : fenceTag (lines[i]?.getD "") = some "mermaid" := by simpa using htag
        have hstep : scanStep lines i st =
            ({ st with inMermaidBlock := true, mermaidContent := "" }, i + 1) := by
          simp [scanStep, hf2, hmm, htag2]
        rw [hstep]
        exact ⟨scanInv_mono h (by omega), by omega, by omega⟩
      · have htag2 : ¬fenceTag (lines[i]?.getD "") = some "mermaid" := by simpa using htag
        have hstep : scanStep lines i st =
            ({ st with inCodeBlock := !st.inCodeBlock,
                       processedContent := st.processedContent ++ lines.getD i "" ++ "\n" },
              i + 1) := by
          simp [scanStep, hf2, hmm, htag2]
        rw [hstep]
        exact ⟨scanInv_appendLine h (le_refl _), by omega, by omega⟩
  · have hf2 : ¬fenceStart (lines[i]?.getD "") = true := by simpa using hf
    by_cases hmm : st.inMermaidBlock = true
    · have hstep : scanStep lines i st =
          ({ st with mermaidContent := st.mermaidContent ++ lines.getD i "" ++ "\n" },
            i + 1) := by
        simp [scanStep, hf2, hmm]
      rw [hstep]
      exact ⟨scanInv_mono h (by omega), by omega, by omega⟩
    · by_cases hsvg : (!st.inCodeBlock &&
          (strIncludes (lines.getD i "") "<svg" || strIncludes (lines.getD i "") "<div")) = true
      · have hsvg2 : st.inCodeBlock = false ∧
            (strIncludes (lines[i]?.getD "") "<svg" = true ∨
              strIncludes (lines[i]?.getD "") "<div" = true) := by
          simpa using hsvg
        by_cases hff : ((svgScan lines i).2.1 && (svgScan lines i).2.2.1) = true
        · have hff2 : (svgScan lines i).2.1 = true ∧ (svgScan lines i).2.2.1 = true := by
            simpa using hff
          obtain ⟨-, hge, hlt2⟩ := svgScan_true_spec hff2.2
          cases hex : extractSvgFromHtml (svgScan lines i).1 with
          | some sv =>
            by_cases hpc : st.processedContent = ""
            · have hstep : scanStep lines i st =
                  ({ st with output := st.output ++ [(Segment.svg sv, i)] },
                    (svgScan lines i).2.2.2 + 1) := by
                simp [scanStep, hf2, hmm, hsvg2, hff2, hex, flushOutput, hpc]
              rw [hstep]
              refine ⟨?_, by omega, by omega⟩
              show ScanInv lines ((svgScan lines i).2.2.2 + 1)
                (st.output ++ [(Segment.svg sv, i)]) st.processedContent
              rw [hpc]
              exact scanInv_pushBlock (by rw [hpc] at h; exact h)
                (Segment.svg sv) rfl (by omega)
            · have hstep : scanStep lines i st =
                  ({ st with
                      output := st.output ++ [(Segment.text st.processedContent, i),
                        (Segment.svg sv, i)],
                      processedContent := "" }, (svgScan lines i).2.2.2 + 1) := by
                simp [scanStep, hf2, hmm, hsvg2, hff2, hex, flushOutput, hpc]
              rw [hstep]
              refine ⟨?_, by omega, by omega⟩
              show ScanInv lines ((svgScan lines i).2.2.2 + 1)
                (st.output ++ [(Segment.text st.processedContent, i),
                  (Segment.svg sv, i)]) ""
              exact scanInv_flushPushBlock h hpc (Segment.svg sv) rfl (by omega)
          | none =>
            have hstep : scanStep lines i st =
                (imageOrText (lines.getD i "") st i, (svgScan lines i).2.2.2 + 1) := by
              simp [scanStep, hf2, hmm, hsvg2, hff2, hex]
            rw [hstep]
            exact ⟨scanInv_imageOrText h (by omega), by omega, by omega⟩
        · have hff2 : ¬((svgScan lines i).2.1 = true ∧ (svgScan lines i).2.2.1 = true) := by
            simpa using hff
          have hfe : (svgScan lines i).2.2.1 = false := by
            rcases hfs : (svgScan lines i).2.2.1 with _ | _
            · rfl
            · exact absurd ⟨(svgScan_true_spec hfs).1, hfs⟩ hff2
          have hidx := svgScan_false_idx hfe
          have hstep : scanStep lines i st =
              (imageOrText (lines.getD i "") st i, (svgScan lines i).2.2.2 + 1) := by
            simp [scanStep, hf2, hmm, hsvg2, hff2]
          rw [hstep, hidx]
          exact ⟨scanInv_imageOrText h (by omega), by omega, by omega⟩
      · have hsvg2 : ¬(st.inCodeBlock = false ∧
            (strIncludes (lines[i]?.getD "") "<svg" = true ∨
              strIncludes (lines[i]?.getD "") "<div" = true)) := by
          simpa using hsvg
        have hstep : scanStep lines i st =
            (imageOrText (lines.getD i "") st i, i + 1) := by
          simp [scanStep, hf2, hmm, hsvg2]
        rw [hstep]
        exact ⟨scanInv_imageOrText h (le_refl _), by omega, by omega⟩

theorem scanInv_loop (lines : List String) :
    ∀ (fuel i : Nat) (st : ScanState),
      ScanInv lines i st.output st.processedContent → i ≤ lines.length →
      ∃ iF, iF ≤ lines.length ∧
        ScanInv lines iF (scanLoop lines fuel i st).output
          (scanLoop lines fuel i st).processedContent := by
  intro fuel
  induction fuel with
  | zero =>
    intro i st h hi
    exact ⟨i, hi, h⟩
  | succ n ih =>
    intro i st h hi
    by_cases hlt : i < lines.length
    · have hs := scanInv_step h hlt
      have hrw : scanLoop lines (n + 1) i st =
          scanLoop lines n (scanStep lines i st).2 (scanStep lines i st).1 := by
        simp [scanLoop, hlt]
      rw [hrw]
      exact ih (scanStep lines i st).2 (scanStep lines i st).1 hs.1 hs.2.1
    · have hrw : scanLoop lines (n + 1) i st = st := by
        simp [scanLoop, hlt]
      rw [hrw]
      exact ⟨i, hi, h⟩

/-- C1.  For every input document the scanner's write trace preserves
source order.  `FlushedOrderedTrace` is the interleaving discipline: the
trace is a sequence of groups, each a lone block write or a text flush
immediately followed — at the same loop iteration — by the block write
that interrupted the accumulator, optionally closed by one final flush
after the last input line; a watermark threaded along the trace confines
every flushed text to source lines strictly after every earlier block's
write index and strictly before the write index of the block it is glued
to (resp. before the end for the final flush) — so text of source lines
read before a block can only be emitted before that block, never withheld
past it, and no block write precedes the flush of the text that precedes
it in the source.  In addition the trace has the plain `[text?, block]*`
shape, the write indices are nondecreasing, and every flushed text is the
nonempty in-order join of source lines read before the iteration that
wrote it. -/
theorem renderMarkdownDirect_order_preservation (lines : List String) :
    FlushedOrderedTrace lines (renderSegments lines) ∧
    FlushedShape (renderSegments lines) ∧
    List.Pairwise (fun a b => a ≤ b) ((renderSegments lines).map Prod.snd) ∧
    ∀ e ∈ renderSegments lines, ∀ s, e.1 = Segment.text s →
      s ≠ "" ∧ TextFromEarlier lines s e.2 := by
  obtain ⟨iF, hiF, hinv⟩ := scanInv_loop lines lines.length 0 initScanState
    (scanInv_init lines) (by omega)
  have hinvN : ScanInv lines lines.length
      (scanLoop lines lines.length 0 initScanState).output
      (scanLoop lines lines.length 0 initScanState).processedContent :=
    scanInv_mono hinv hiF
  set stF := scanLoop lines lines.length 0 initScanState with hstF
  obtain ⟨hw, hhw, hbs, htb⟩ := hinvN.ordered
  by_cases hpc : stF.processedContent = ""
  · have hout : renderSegments lines = stF.output := by
      simp [renderSegments, flushOutput, ← hstF, hpc]
    rw [hout]
    refine ⟨Or.inl ⟨hw, hbs⟩, Or.inl hinvN.shape, hinvN.tsMono, ?_⟩
    intro e he s hs
    exact hinvN.textsOk e he s hs
  · have hout : renderSegments lines =
        stF.output ++ [(Segment.text stF.processedContent, lines.length)] := by
      simp [renderSegments, flushOutput, ← hstF, hpc]
    rw [hout]
    refine ⟨Or.inr ⟨stF.output, stF.processedContent, lines.length, hw, rfl, hbs,
        hpc, hhw, htb⟩,
      Or.inr ⟨stF.output, stF.processedContent, lines.length, rfl, hinvN.shape⟩, ?_, ?_⟩
    · rw [List.map_append, List.pairwise_append]
      refine ⟨hinvN.tsMono, by simp, ?_⟩
      intro a ha b hb
      simp at hb
      obtain ⟨e, he, hae⟩ := List.mem_map.1 ha
      have := hinvN.tsLt e he
      omega
    · intro e he s hs
      rcases List.mem_append.1 he with h1 | h2
      · exact hinvN.textsOk e h1 s hs
      · have h2' : e = (Segment.text stF.processedContent, lines.length) := by
          simpa using h2
        subst h2'
        have hspc : stF.processedContent = s := by simpa using hs
        subst hspc
        exact ⟨hpc, hinvN.pcOk⟩

/-- Sanity check on the strength of `FlushedOrderedTrace`: a trace that
withholds pending text across a block — here the text of source line 0
emitted only after the block from source line 1, over the document
`["a", "m", "b"]` — violates the discipline, even though it has the
`[text?, block]*` shape, nondecreasing write indices, and each text an
in-order join of lines earlier than its own write index. -/
theorem flushedOrderedTrace_forbids_withheld_text :
    ¬FlushedOrderedTrace ["a", "m", "b"]
      [(Segment.mermaid "m\n", 2), (Segment.text "a\nb\n", 3)] := by
  intro h
  rcases h with ⟨hi, hbs⟩ | ⟨pre, s, t, hi, heq, hbs, hs, hhw, htb⟩
  · obtain ⟨-, hrest⟩ := blockSeq_block_cons hbs (by simp [isTextSeg])
    exact blockSeq_single_text hrest
  · rcases pre with _ | ⟨x, pre2⟩
    · simp at heq
    · rcases pre2 with _ | ⟨y, pre3⟩
      · simp at heq
        obtain ⟨hx, hst, hts⟩ := heq
        subst hx
        subst hst
        subst hts
        obtain ⟨-, hrest⟩ := blockSeq_block_cons hbs (by simp [isTextSeg])
        have hhi : hi = 3 := blockSeq_nil_inv hrest
        subst hhi
        obtain ⟨sel, hch, hb, hj⟩ := htb
        cases sel with
        | nil => simp [SelJoin] at hj
        | cons j rest =>
          have := hb j (by simp)
          omega
      · simp at heq

/-- C2 (code-bug evidence).  On the document `["```text", "```mermaid"]`
the first line opens an ordinary code fence; the second line is a
mermaid-tagged fence and the scanner starts diagram buffering without
consulting the code-fence flag, so after two iterations `inCodeBlock` and
`inMermaidBlock` are both true — the claimed exclusivity invariant fails
at this line boundary. -/
theorem mermaid_fence_inside_code_fence_breaks_exclusivity :
    (scanLoop ["```text", "```mermaid"] 2 0 initScanState).inCodeBlock = true ∧
    (scanLoop ["```text", "```mermaid"] 2 0 initScanState).inMermaidBlock = true := by
  decide

/-- C3 (code-bug evidence).  On the document
`["```text", "```mermaid", "![x](y.png)", "```"]` the image-shaped third
line occurs while `inCodeBlock` is true, yet it is buffered as diagram
source and dispatched to the diagram/image rendering pipeline when the
fourth line closes the mermaid fence — it is not appended to the text
accumulator and not rendered as code.  The final state still has
`inCodeBlock = true`. -/
theorem image_line_inside_code_fence_dispatched_as_diagram :
    renderSegments ["```text", "```mermaid", "![x](y.png)", "```"] =
      [(Segment.text "```text\n", 3), (Segment.mermaid "![x](y.png)\n", 3)] ∧
    (scanLoop ["```text", "```mermaid", "![x](y.png)", "```"] 4 0 initScanState).inCodeBlock
      = true := by
  decide

/-- C9 (counterexample).  The line `![<svg](y.png)` looks like the start of
a vector-graphic block (it contains `<svg`) and has no closing tag in the
lookahead window, but the scanner does not append it to the text
accumulator: it falls through to the standalone-image check, which matches,
and the line is dispatched to the image adapter. -/
theorem svg_lookahead_fallthrough_counterexample :
    renderSegments ["![<svg](y.png)"] = [(Segment.image "<svg" "y.png", 0)] := by
  decide

/-- C9 (amended).  When the scanner, outside any fence, meets a line that
looks like the start of a vector-graphic block but the bounded lookahead
finds no complete block (no `<svg`, or no `</svg>` within 100 lines, or no
`</div>` within 5 further lines), it does not buffer: the loop index
advances to the very next line, and the opening line falls through to the
standalone-image check — appended to the text accumulator with nothing
emitted when it is not image-shaped, dispatched as a standalone image when
it is. -/
theorem svg_lookahead_bounded_fallthrough (lines : List String) (i : Nat)
    (st : ScanState) (hmm : st.inMermaidBlock = false)
    (hcode : st.inCodeBlock = false)
    (hf : fenceStart (lines.getD i "") = false)
    (hshape : (strIncludes (lines.getD i "") "<svg" ||
      strIncludes (lines.getD i "") "<div") = true)
    (hnb : ((svgScan lines i).2.1 && (svgScan lines i).2.2.1) = false) :
    (scanStep lines i st).2 = i + 1 ∧
    (imageLineMatch (lines.getD i "") = none →
      (scanStep lines i st).1.processedContent =
        st.processedContent ++ lines.getD i "" ++ "\n" ∧
      (scanStep lines i st).1.output = st.output) ∧
    (∀ alt src, imageLineMatch (lines.getD i "") = some (alt, src) →
      (scanStep lines i st).1.output =
        (flushOutput st i).output ++ [(Segment.image alt src, i)] ∧
      (scanStep lines i st).1.processedContent = "") := by
  have hfe : (svgScan lines i).2.2.1 = false := by
    rcases hfs : (svgScan lines i).2.2.1 with _ | _
    · rfl
    · have h1 := (svgScan_true_spec hfs).1
      rw [h1, hfs] at hnb
      simp at hnb
  have hidx := svgScan_false_idx hfe
  have hf2 : ¬fenceStart (lines[i]?.getD "") = true := by simpa using hf
  have hsvg2 : st.inCodeBlock = false ∧
      (strIncludes (lines[i]?.getD "") "<svg" = true ∨
        strIncludes (lines[i]?.getD "") "<div" = true) :=
    ⟨hcode, by simpa using hshape⟩
  have hff2 : ¬((svgScan lines i).2.1 = true ∧ (svgScan lines i).2.2.1 = true) := by
    intro hc
    rw [hc.2] at hfe
    simp at hfe
  have hstep : scanStep lines i st =
      (imageOrText (lines.getD i "") st i, (svgScan lines i).2.2.2 + 1) := by
    simp [scanStep, hf2, hmm, hsvg2, hff2]
  rw [hstep, hidx]
  refine ⟨rfl, ?_, ?_⟩
  · intro hm
    have hm2 : imageLineMatch (lines[i]?.getD "") = none := by simpa using hm
    simp [imageOrText, hm2]
  · intro alt src hm
    have hm2 : imageLineMatch (lines[i]?.getD "") = some (alt, src) := by simpa using hm
    simp [imageOrText, hm2, hcode, flushOutput]
    by_cases hpc : st.processedContent = ""
    · simp [hpc]
    · simp [hpc]

theorem svg_lookahead_bounded_fallthrough_witness :
    (scanStep ["<div"] 0 initScanState).2 = 1 ∧
    (scanStep ["<div"] 0 initScanState).1.processedContent = "<div\n" := by
  have h := svg_lookahead_bounded_fallthrough ["<div"] 0 initScanState
    (by decide) (by decide) (by decide) (by decide) (by decide)
  refine ⟨h.1, ?_⟩
  have h2 := (h.2.1 (by decide)).1
  rw [h2]
  decide

/-- C4 (counterexample).  A present-but-unparseable configuration file does
not surface a corrupt-config condition: `loadConfig` catches the
`JSON.parse` failure in the same catch-all as `ENOENT`, returns the
built-in defaults normally (no error escapes to the caller), and does not
even reinitialize the file. -/
theorem loadConfig_unparseable_counterexample :
    (loadConfig ConfigFileState.unparseable).surfacedError = false ∧
    (loadConfig ConfigFileState.unparseable).config = defaultConfig ∧
    (loadConfig ConfigFileState.unparseable).initialized = false :=
  ⟨rfl, rfl, rfl⟩

/-- C4 (amended).  `loadConfig` initializes and returns the built-in
defaults when the file is absent; when the file is present but unparseable
it also returns the defaults, silently — no corrupt-config condition is
surfaced to the caller and the file is not reinitialized; a parsed file is
deep-merged over the defaults. -/
theorem loadConfig_failure_modes :
    loadConfig ConfigFileState.missing =
      { config := defaultConfig, initialized := true, surfacedError := false } ∧
    loadConfig ConfigFileState.unparseable =
      { config := defaultConfig, initialized := false, surfacedError := false } ∧
    ∀ u, loadConfig (ConfigFileState.parsed u) =
      { config := deepMerge defaultConfig u, initialized := false,
        surfacedError := false } :=
  ⟨rfl, rfl, fun _ => rfl⟩

/-- C5 (counterexample).  With one terminal column (positive) and
`widthPercent = 1/2` (inside `(0, 1]`), the computed column count is `0`:
the source applies no minimum-1 clamp, unlike the spec's
`columnsForWidth`. -/
theorem targetColumns_no_clamp_counterexample :
    targetColumns 1 (1/2) = 0 ∧ ¬(1 ≤ targetColumns 1 (1/2)) ∧
    columnsForWidthSpec 1 (1/2) = 1 := by
  refine ⟨?_, ?_, ?_⟩
  · norm_num [targetColumns]
  · norm_num [targetColumns]
  · norm_num [columnsForWidthSpec]

/-- C5 (amended).  The terminal width computation is exactly
`floor(terminalColumns * widthPercent)` with no minimum clamp:
`targetColumns 100 (3/4) = 75` and `targetColumns 81 (3/4) = 60`, and the
result is at least 1 exactly when the product is at least 1 — for products
below 1 (small terminals) the computation returns 0. -/
theorem targetColumns_floor_semantics :
    targetColumns 100 (3/4) = 75 ∧ targetColumns 81 (3/4) = 60 ∧
    ∀ (c : ℕ) (p : ℚ), 1 ≤ (c : ℚ) * p → 1 ≤ targetColumns c p := by
  refine ⟨by norm_num [targetColumns], by norm_num [targetColumns], ?_⟩
  intro c p h
  exact Int.le_floor.mpr (by exact_mod_cast h)

theorem lookupField_objSet_self (f : List (String × JVal)) (k : String) (v : JVal) :
    lookupField (objSet f k v) k = some v := by
  induction f with
  | nil => simp [objSet, lookupField]
  | cons kv rest ih =>
    obtain ⟨k', v'⟩ := kv
    by_cases h : k' = k
    · simp [objSet, lookupField, h]
    · simp [objSet, lookupField, h, ih]

theorem lookupField_objSet_ne (f : List (String × JVal)) {k k' : String} (v : JVal)
    (h : k' ≠ k) : lookupField (objSet f k v) k' = lookupField f k' := by
  induction f with
  | nil =>
    have hne : k ≠ k' := fun hc => h hc.symm
    simp [objSet, lookupField, hne]
  | cons kv rest ih =>
    obtain ⟨k'', v''⟩ := kv
    by_cases h2 : k'' = k
    · subst h2
      have hne : k'' ≠ k' := fun hc => h hc.symm
      simp [objSet, lookupField, hne]
    · simp only [objSet, h2, if_false, lookupField, ite_false]
      by_cases h3 : k'' = k'
      · simp [h3]
      · simp [h3, ih]

theorem lookupField_isSome_objSet (f : List (String × JVal)) (k k' : String)
    (v : JVal) (h : (lookupField f k').isSome) :
    (lookupField (objSet f k v) k').isSome := by
  by_cases hk : k' = k
  · subst hk
    rw [lookupField_objSet_self]
    rfl
  · rw [lookupField_objSet_ne f v hk]
    exact h

theorem lookupField_mergeFields_of_not_mem (tf : List (String × JVal)) :
    ∀ (sf out : List (String × JVal)) {k : String},
      k ∉ sf.map Prod.fst →
      lookupField (mergeFields tf sf out) k = lookupField out k := by
  intro sf
  induction sf with
  | nil =>
    intro out k _
    simp [mergeFields]
  | cons kv rest ih =>
    intro out k hk
    obtain ⟨k', v⟩ := kv
    simp only [List.map_cons, List.mem_cons] at hk
    push_neg at hk
    rw [show mergeFields tf ((k', v) :: rest) out =
      mergeFields tf rest
        (if isObjectB v then
          if (lookupField tf k').isNone then objSet out k' v
          else objSet out k' (deepMerge ((lookupField tf k').getD .null) v)
        else objSet out k' v) from by rw [mergeFields]]
    rw [ih _ hk.2]
    have hne : k ≠ k' := hk.1
    split
    · split
      · exact lookupField_objSet_ne out v hne
      · exact lookupField_objSet_ne out _ hne
    · exact lookupField_objSet_ne out v hne

theorem lookupField_mergeFields_found (tf : List (String × JVal)) :
    ∀ (sf out : List (String × JVal)) (k : String) (v : JVal),
      (sf.map Prod.fst).Nodup → lookupField sf k = some v →
      lookupField (mergeFields tf sf out) k =
        some (if isObjectB v then
                if (lookupField tf k).isNone then v
                else deepMerge ((lookupField tf k).getD .null) v
              else v) := by
  intro sf
  induction sf with
  | nil =>
    intro out k v _ hl
    simp [lookupField] at hl
  | cons kv rest ih =>
    intro out k v hnd hl
    obtain ⟨k', v'⟩ := kv
    simp only [List.map_cons, List.nodup_cons] at hnd
    rw [show mergeFields tf ((k', v') :: rest) out =
      mergeFields tf rest
        (if isObjectB v' then
          if (lookupField tf k').isNone then objSet out k' v'
          else objSet out k' (deepMerge ((lookupField tf k').getD .null) v')
        else objSet out k' v') from by rw [mergeFields]]
    by_cases hk : k' = k
    · subst hk
      have hv : v' = v := by simpa [lookupField] using hl
      subst hv
      rw [lookupField_mergeFields_of_not_mem tf rest _ hnd.1]
      by_cases ho : isObjectB v' = true
      · by_cases hn : (lookupField tf k').isNone
        · simp [ho, hn, lookupField_objSet_self]
        · simp [ho, hn, lookupField_objSet_self]
      · simp [ho, lookupField_objSet_self]
    · have hl' : lookupField rest k = some v := by
        simpa [lookupField, hk] using hl
      exact ih _ k v hnd.2 hl'

theorem lookupField_isSome_mergeFields (tf : List (String × JVal)) :
    ∀ (sf out : List (String × JVal)) (k : String),
      (lookupField out k).isSome →
      (lookupField (mergeFields tf sf out) k).isSome := by
  intro sf
  induction sf with
  | nil =>
    intro out k h
    simpa [mergeFields] using h
  | cons kv rest ih =>
    intro out k h
    obtain ⟨k', v'⟩ := kv
    rw [show mergeFields tf ((k', v') :: rest) out =
      mergeFields tf rest
        (if isObjectB v' then
          if (lookupField tf k').isNone then objSet out k' v'
          else objSet out k' (deepMerge ((lookupField tf k').getD .null) v')
        else objSet out k' v') from by rw [mergeFields]]
    apply ih
    by_cases ho : isObjectB v' = true
    · by_cases hn : (lookupField tf k').isNone
      · simpa [ho, hn] using lookupField_isSome_objSet out k' k v' h
      · simpa [ho, hn] using lookupField_isSome_objSet out k' k _ h
    · simpa [ho] using lookupField_isSome_objSet out k' k v' h

/-- C6.  `deepMerge` merges plain objects key-by-key: a non-object source
value (arrays included) replaces the target's value wholesale; an
object-valued source key absent from the target is added as-is; an
object-valued source key present on the target is merged recursively; and
on the profile-shaped example, merging `{a:{x:1,y:2}}` with
`{a:{y:3,z:4}}` yields `{a:{x:1,y:3,z:4}}`. -/
theorem deepMerge_key_by_key_semantics :
    (∀ (tf sf : List (String × JVal)) (k : String) (v : JVal),
      (sf.map Prod.fst).Nodup → lookupField sf k = some v → isObjectB v = false →
      objLookup (deepMerge (.obj tf) (.obj sf)) k = some v) ∧
    (∀ (tf sf : List (String × JVal)) (k : String) (v : JVal),
      (sf.map Prod.fst).Nodup → lookupField sf k = some v → isObjectB v = true →
      lookupField tf k = none →
      objLookup (deepMerge (.obj tf) (.obj sf)) k = some v) ∧
    (∀ (tf sf : List (String × JVal)) (k : String) (tv sv : JVal),
      (sf.map Prod.fst).Nodup → lookupField sf k = some sv → isObjectB sv = true →
      lookupField tf k = some tv →
      objLookup (deepMerge (.obj tf) (.obj sf)) k = some (deepMerge tv sv)) ∧
    deepMerge (.obj [("a", .obj [("x", .num 1), ("y", .num 2)])])
        (.obj [("a", .obj [("y", .num 3), ("z", .num 4)])]) =
      .obj [("a", .obj [("x", .num 1), ("y", .num 3), ("z", .num 4)])] := by
  have hd : ∀ (tf sf : List (String × JVal)),
      deepMerge (.obj tf) (.obj sf) = .obj (mergeFields tf sf tf) := by
    intro tf sf
    rw [deepMerge]
  refine ⟨?_, ?_, ?_, ?_⟩
  · intro tf sf k v hnd hl ho
    rw [hd, show objLookup (JVal.obj (mergeFields tf sf tf)) k =
      lookupField (mergeFields tf sf tf) k from rfl]
    rw [lookupField_mergeFields_found tf sf tf k v hnd hl]
    simp [ho]
  · intro tf sf k v hnd hl ho hn
    rw [hd, show objLookup (JVal.obj (mergeFields tf sf tf)) k =
      lookupField (mergeFields tf sf tf) k from rfl]
    rw [lookupField_mergeFields_found tf sf tf k v hnd hl]
    simp [ho, hn]
  · intro tf sf k tv sv hnd hl ho ht
    rw [hd, show objLookup (JVal.obj (mergeFields tf sf tf)) k =
      lookupField (mergeFields tf sf tf) k from rfl]
    rw [lookupField_mergeFields_found tf sf tf k sv hnd hl]
    simp [ho, ht]
  · simp [deepMerge, mergeFields, objSet, lookupField, isObjectB]

/-- C10.  `deepMerge` never removes configuration keys: every key present
on the base object is present in the merged result, and merging the empty
override over a base object returns the base unchanged — a user override
document can change or add settings but cannot delete a built-in
default. -/
theorem deepMerge_preserves_base_keys :
    (∀ (tf sf : List (String × JVal)) (k : String),
      (lookupField tf k).isSome →
      (objLookup (deepMerge (.obj tf) (.obj sf)) k).isSome) ∧
    ∀ tf, deepMerge (.obj tf) (.obj []) = .obj tf := by
  constructor
  · intro tf sf k h
    rw [show deepMerge (.obj tf) (.obj sf) = .obj (mergeFields tf sf tf) from by
      rw [deepMerge]]
    exact lookupField_isSome_mergeFields tf sf tf k h
  · intro tf
    rw [deepMerge, mergeFields]

theorem deepMerge_key_by_key_semantics_witness :
    lookupField [("a", JVal.num 2)] "a" = some (JVal.num 2) ∧
    objLookup (deepMerge (.obj [("b", JVal.num 1)]) (.obj [("a", JVal.num 2)])) "a" =
      some (JVal.num 2) := by
  constructor
  · rfl
  · exact deepMerge_key_by_key_semantics.1 [("b", JVal.num 1)] [("a", JVal.num 2)]
      "a" (JVal.num 2) (by simp) rfl rfl

theorem deepMerge_preserves_base_keys_witness :
    (lookupField [("a", JVal.num 1)] "a").isSome = true ∧
    (objLookup (deepMerge (.obj [("a", JVal.num 1)]) (.obj [("b", JVal.num 2)])) "a").isSome
      = true := by
  constructor
  · rfl
  · exact deepMerge_preserves_base_keys.1 [("a", JVal.num 1)] [("b", JVal.num 2)] "a" rfl

theorem renderCallsTally_steady (compileSucceeds : Bool) :
    ∀ n, renderCallsTally false compileSucceeds n
        { mermaidAvailable := some false, mermaidWarningShown := true } =
      (0, 0, { mermaidAvailable := some false, mermaidWarningShown := true }) := by
  intro n
  induction n with
  | zero => rfl
  | succ m ih =>
    simp [renderCallsTally, renderMermaidDiagramFlow, checkMermaidAvailable, ih]

/-- C7.  When the cached probe says the diagram compiler is absent, every
`renderMermaidDiagram` call returns a placeholder without invoking the
compiler subprocess, without re-running the probe, without printing another
warning and without changing the module state; and over any number of
calls in a fresh process whose probe fails, the missing-tool warning is
printed exactly once and the probe runs exactly once (`min n 1` of each
for `n` calls). -/
theorem renderMermaidDiagram_unavailable_fallback :
    (∀ (probe compileSucceeds : Bool) (st : MermaidModuleState),
      st.mermaidAvailable = some false →
      renderMermaidDiagramFlow probe compileSucceeds st =
        { returnedPlaceholder := true, compilerInvoked := false, state := st,
          probeExecuted := false, warningPrinted := false }) ∧
    ∀ (compileSucceeds : Bool) (n : Nat),
      (renderCallsTally false compileSucceeds n initMermaidModule).1 = min n 1 ∧
      (renderCallsTally false compileSucceeds n initMermaidModule).2.1 = min n 1 := by
  constructor
  · intro probe compileSucceeds st hc
    simp [renderMermaidDiagramFlow, checkMermaidAvailable, hc]
  · intro compileSucceeds n
    cases n with
    | zero => exact ⟨rfl, rfl⟩
    | succ m =>
      have hsteady := renderCallsTally_steady compileSucceeds m
      constructor
      · simp [renderCallsTally, renderMermaidDiagramFlow, checkMermaidAvailable,
          initMermaidModule, hsteady, Nat.min_def]
      · simp [renderCallsTally, renderMermaidDiagramFlow, checkMermaidAvailable,
          initMermaidModule, hsteady, Nat.min_def]

theorem renderMermaidDiagram_unavailable_fallback_witness :
    ({ mermaidAvailable := some false, mermaidWarningShown := true } :
        MermaidModuleState).mermaidAvailable = some false ∧
    renderMermaidDiagramFlow true true
        { mermaidAvailable := some false, mermaidWarningShown := true } =
      { returnedPlaceholder := true, compilerInvoked := false,
        state := { mermaidAvailable := some false, mermaidWarningShown := true },
        probeExecuted := false, warningPrinted := false } := by
  constructor
  · rfl
  · exact renderMermaidDiagram_unavailable_fallback.1 true true _ rfl

theorem mem_fsWrite_self (fs : List TmpPath) (p : TmpPath) : p ∈ fsWrite fs p := by
  by_cases h : p ∈ fs <;> simp [fsWrite, h]

theorem not_mem_fsUnlink_self (fs : List TmpPath) (p : TmpPath) :
    p ∉ fsUnlink fs p := by
  simp [fsUnlink]

theorem not_mem_fsUnlink (fs : List TmpPath) (p q : TmpPath) (h : q ∉ fs) :
    q ∉ fsUnlink fs p := by
  simp only [fsUnlink, List.mem_filter]
  intro hc
  exact h hc.1

theorem mem_fsUnlink_of_ne (fs : List TmpPath) {p q : TmpPath} (h : q ∈ fs)
    (hne : q ≠ p) : q ∈ fsUnlink fs p := by
  simp [fsUnlink, List.mem_filter, h, hne]

theorem not_mem_fsWrite_of_ne (fs : List TmpPath) {p q : TmpPath} (h : q ∉ fs)
    (hne : q ≠ p) : q ∉ fsWrite fs p := by
  by_cases hp : p ∈ fs <;> simp [fsWrite, hp, h, hne]

/-- C8.  After any `renderMermaidDiagram` call that attempts compilation
(the compiler is available), the intermediate source (`.mmd`) and
theme-config (`.json`) temp files no longer exist, on the success and on
the failure path alike; the path returned to the caller exists (the `mmdc`
output on success, the substituted placeholder on failure) — the adapter
never deletes it itself — and it is removed exactly by a caller-issued
`cleanupMermaidFile`. -/
theorem renderMermaidDiagram_cleanup (compileSucceeds : Bool)
    (outputFormat hash : String) (fs : List TmpPath) :
    TmpPath.mermaidSrc hash ∉ (renderMermaidDiagramFS true compileSucceeds outputFormat hash fs).2 ∧
    TmpPath.mermaidCfg hash ∉ (renderMermaidDiagramFS true compileSucceeds outputFormat hash fs).2 ∧
    (renderMermaidDiagramFS true compileSucceeds outputFormat hash fs).1 ∈
      (renderMermaidDiagramFS true compileSucceeds outputFormat hash fs).2 ∧
    (renderMermaidDiagramFS true compileSucceeds outputFormat hash fs).1 ∉
      cleanupMermaidFile (renderMermaidDiagramFS true compileSucceeds outputFormat hash fs).1
        (renderMermaidDiagramFS true compileSucceeds outputFormat hash fs).2 := by
  cases compileSucceeds with
  | true =>
    have hr : renderMermaidDiagramFS true true outputFormat hash fs =
        (TmpPath.mermaidOut hash outputFormat,
          fsUnlink (fsUnlink (fsWrite (fsWrite (fsWrite fs (TmpPath.mermaidCfg hash))
              (TmpPath.mermaidSrc hash)) (TmpPath.mermaidOut hash outputFormat))
            (TmpPath.mermaidSrc hash)) (TmpPath.mermaidCfg hash)) := by
      simp [renderMermaidDiagramFS]
    rw [hr]
    refine ⟨?_, ?_, ?_, ?_⟩
    · exact not_mem_fsUnlink _ _ _ (not_mem_fsUnlink_self _ _)
    · exact not_mem_fsUnlink_self _ _
    · refine mem_fsUnlink_of_ne _ ?_ (by simp)
      refine mem_fsUnlink_of_ne _ ?_ (by simp)
      exact mem_fsWrite_self _ _
    · exact not_mem_fsUnlink_self _ _
  | false =>
    have hr : renderMermaidDiagramFS true false outputFormat hash fs =
        (TmpPath.mermaidOut hash "svg",
          fsWrite (fsUnlink (fsUnlink (fsUnlink (fsWrite (fsWrite fs
              (TmpPath.mermaidCfg hash)) (TmpPath.mermaidSrc hash))
            (TmpPath.mermaidSrc hash)) (TmpPath.mermaidCfg hash))
            (TmpPath.mermaidOut hash outputFormat)) (TmpPath.mermaidOut hash "svg")) := by
      by_cases hfmt : outputFormat = "svg" <;>
        simp [renderMermaidDiagramFS, createPlaceholderImage, hfmt]
    rw [hr]
    refine ⟨?_, ?_, ?_, ?_⟩
    · refine not_mem_fsWrite_of_ne _ ?_ (by simp)
      exact not_mem_fsUnlink _ _ _ (not_mem_fsUnlink _ _ _ (not_mem_fsUnlink_self _ _))
    · refine not_mem_fsWrite_of_ne _ ?_ (by simp)
      exact not_mem_fsUnlink _ _ _ (not_mem_fsUnlink_self _ _)
    · exact mem_fsWrite_self _ _
    · exact not_mem_fsUnlink_self _ _
